import Mathlib

/-!
Verification of the upim-contact query-language core (filter.rs, contact.rs,
args.rs of applications/upim-contact) against its specification.

Strings are modelled as `List Char`. The Rust sources index and slice by
byte; on ASCII input (the language's keywords, operators and quotes are all
ASCII, and `to_ascii_uppercase` only changes ASCII letters, preserving byte
positions) byte indices and character indices coincide, so the embedding
slices by character index. Rust panics (`todo!()`, `panic!()`, out-of-bounds
slicing) are modelled explicitly: evaluation that panics yields `none` /
`Err.panicked` rather than a value.
-/

namespace Upim

/-- Strings as lists of characters (see the module comment). -/
abbrev Str : Type := List Char

/-- `char::to_ascii_uppercase`: uppercase ASCII letters only. -/
def asciiUpperChar (c : Char) : Char :=
  if 'a' ≤ c ∧ c ≤ 'z' then Char.ofNat (c.toNat - 32) else c

/-- `str::to_ascii_uppercase`. -/
def asciiUpper (s : Str) : Str := s.map asciiUpperChar

/-- `char::to_ascii_lowercase` (contact.rs uses `str::to_lowercase`; on the
ASCII group names involved the two agree). -/
def asciiLowerChar (c : Char) : Char :=
  if 'A' ≤ c ∧ c ≤ 'Z' then Char.ofNat (c.toNat + 32) else c

/-- `str::to_lowercase`, restricted to ASCII (see `asciiLowerChar`). -/
def asciiLower (s : Str) : Str := s.map asciiLowerChar

/-- `str::trim_start`. -/
def trimStart (s : Str) : Str := s.dropWhile Char.isWhitespace

/-- `str::trim_end`. -/
def trimEnd (s : Str) : Str := (s.reverse.dropWhile Char.isWhitespace).reverse

/-- `str::trim`. -/
def trim (s : Str) : Str := trimEnd (trimStart s)

/-- The slice `s[a..b]` (characters from index `a` up to, excluding, `b`). -/
def slice (s : Str) (a b : Nat) : Str := (s.take b).drop a

/-- `str::split_once(c)`: split at the first occurrence of `c`, neither half
containing the separator; `none` when `c` does not occur. -/
def splitOnce : Str → Char → Option (Str × Str)
  | [], _ => none
  | c :: rest, d =>
    if c = d then some ([], rest)
    else (splitOnce rest d).map (fun p => (c :: p.1, p.2))

/-- Supported operators on filters (`FilterOp` in filter.rs). -/
inductive FilterOp
  | equalTo
  | lessThan
  | lessEq
  | greaterThan
  | greaterEq
  | not
deriving Repr, DecidableEq

/-- Errors of the parsing layer. `anyhow` stands for an `anyhow!` error value
(only a short tag of the message is kept; no claim inspects message text),
`func` wraps a `FunctionParseError`, and `panicked` marks a Rust panic
(`panic!`, `todo!`, out-of-bounds indexing). -/
inductive FunctionParseError
  | invalidArguments (s : Str)
  | missingClosingParenthesis
  | noVariableAssignment (s : Str)
  | invalidOperator (op : FilterOp)
  | unknownFunction (s : Str)
deriving Repr, DecidableEq

inductive Err
  | panicked
  | anyhow (tag : String)
  | func (e : FunctionParseError)
deriving Repr, DecidableEq

/-- `FilterOp::from_str` (filter.rs lines 160–174): exact match on the
six operator tokens. -/
def FilterOp.fromStr (s : Str) : Except Err FilterOp :=
  if s = "=".toList then .ok .equalTo
  else if s = "<".toList then .ok .lessThan
  else if s = "<=".toList then .ok .lessEq
  else if s = ">".toList then .ok .greaterThan
  else if s = ">=".toList then .ok .greaterEq
  else if s = "NOT".toList then .ok .not
  else .error (.anyhow "Invalid string for Filter operator")

/-- `impl Display for FilterOp` (filter.rs lines 176–187): the serialized
token of each operator. -/
def FilterOp.toStr : FilterOp → Str
  | .equalTo => "=".toList
  | .lessThan => "<".toList
  | .lessEq => "<=".toList
  | .greaterThan => ">".toList
  | .greaterEq => ">=".toList
  | .not => "NOT".toList

/-- The scan of `find_any_str` (filter.rs lines 483–501): starting at
character index `i`, return the first position whose suffix starts with one
of `pats` (patterns tried in order at each position). -/
def findAnyStrGo (pats : List Str) : Str → Nat → Option (Nat × Str)
  | [], _ => none
  | s@(_ :: rest), i =>
    match pats.find? (fun p => p.isPrefixOf s) with
    | some p => some (i, p)
    | none => findAnyStrGo pats rest (i + 1)

/-- `find_any_str(s, patterns)`: the index of the leftmost occurrence in `s`
of any element of `patterns`, with the pattern found. -/
def findAnyStr (s : Str) (pats : List Str) : Option (Nat × Str) :=
  findAnyStrGo pats s 0

/-- `find_any(s, patterns)`: index of the leftmost character of `s` that is
in `patterns`. -/
def findAny (s : Str) (pats : List Char) : Option (Nat × Char) :=
  (s.enum.find? (fun p => pats.contains p.2)).map (fun p => p)

/-- `field_name_is_valid` (filter.rs lines 525–528): no reserved keyword and
no quotation mark, checked case-insensitively via uppercasing. -/
def fieldNameIsValid (field : Str) : Bool :=
  (findAnyStr (asciiUpper field)
    [" WHERE ".toList, " AND ".toList, " OR ".toList,
     "\"".toList, "'".toList]).isNone

/-- `is_quoted` (filter.rs lines 532–544). The source panics (`panic!()`)
when the string is a single quote character: the first `chars` step consumes
it and `ch.rev().next()` finds nothing. That case is `none`; every other
input returns `some` of the source's boolean. -/
def isQuotedO (s : Str) : Option Bool :=
  match s with
  | c :: rest =>
    if c = '"' ∨ c = '\'' then
      match rest.getLast? with
      | some d => some (c = d)
      | none => none
    else some false
  | [] => some false

/-- The scan loop of `get_inner_expression` (filter.rs lines 550–569):
`k` is the index of the current character, `level` the parenthesis depth;
returns the index at which the depth first returns to zero. -/
def gieLoop : Str → Int → Nat → Option Nat
  | [], _, _ => none
  | c :: rest, level, k =>
    let level' := if c = '(' then level + 1
                  else if c = ')' then level - 1
                  else level
    if level' = 0 then some k
    else gieLoop rest level' (k + 1)

/-- `get_inner_expression` (filter.rs lines 550–569): the span of the text
within matching parentheses, as (characters consumed, inner text). On an
empty string, or when the depth returns to zero at index 0 (a first
character that is not `(`), the source slices `s[1..=i-1]` with `i-1`
underflowing `usize` and panics. -/
def getInnerExpression (s : Str) : Except Err (Nat × Str) :=
  if s = [] then .error .panicked
  else
    match gieLoop s 0 0 with
    | some i => if 1 ≤ i then .ok (i + 1, slice s 1 i) else .error .panicked
    | none => .error (.anyhow "Not a parenthesized expression")

/-- `read_field` (filter.rs lines 576–607): read one field name, quoted
(`'…'`, `"…"`), parenthesized, or up to the next space. The terminator is
searched from index 1 on. -/
def readField (s : Str) : Except Err (Nat × Str) :=
  match s with
  | [] => .error (.anyhow "Expected a field name")
  | c :: _ =>
    let startIdx : Nat := if c = '\'' ∨ c = '"' ∨ c = '(' then 1 else 0
    let endChar : Char :=
      if c = '\'' then '\'' else if c = '"' then '"'
      else if c = '(' then ')' else ' '
    match ((s.drop 1).findIdx? (· = endChar)).map (· + 1) with
    | some i =>
      if fieldNameIsValid (slice s startIdx i) then
        .ok (i + startIdx, slice s startIdx i)
      else .error (.anyhow "Field name is not valid")
    | none => .error (.anyhow "Invalid field string")

/-- `read_fields` (filter.rs lines 614–658): read the select-field list,
quoted or bare; a bare list with no later space consumes the whole string.
The names are comma-split and each must be valid. -/
def readFields (s : Str) : Except Err (Nat × List Str) :=
  match s with
  | [] => .ok (0, [])
  | c :: _ =>
    let startIdx : Nat := if c = '\'' ∨ c = '"' then 1 else 0
    let endChar : Char := if c = '\'' then '\'' else if c = '"' then '"' else ' '
    let endIdx : Option Nat :=
      match ((s.drop 1).findIdx? (· = endChar)).map (· + 1) with
      | some i => some i
      | none => if endChar = ' ' then some s.length else none
    match endIdx with
    | some i =>
      let fields := (slice s startIdx i).splitOn ','
      if fields.all fieldNameIsValid then .ok (i + startIdx, fields)
      else .error (.anyhow "Invalid field name in list")
    | none => .error (.anyhow "Expected closing quote in field list")

/-- `read_variable` (filter.rs lines 660–666): the text before the first
space or `=`, trimmed; consumes through that delimiter. -/
def readVariable (s : Str) : Except Err (Nat × Str) :=
  match findAny s [' ', '='] with
  | some (idx, _) => .ok (idx + 1, trim (s.take idx))
  | none => .error (.anyhow "Expected variable assignment")

/-- `read_op` (filter.rs lines 673–680): the token before the first space,
parsed as an operator; consumes the token but not the space. -/
def readOp (s : Str) : Except Err (Nat × FilterOp) :=
  match splitOnce s ' ' with
  | some (op, _) =>
    match FilterOp.fromStr op with
    | .ok o => .ok (op.length, o)
    | .error e => .error e
  | none => .error (.anyhow "Invalid operator clause")

/-- Supported functions in queries (`Function` in filter.rs): `Ref` holds
either a direct field name or a nested `Split`; `Split` holds the bound
variable, the field and the separator character; `Regex` a field and a
pattern. -/
inductive Function
  | ref (varName : Str) (target : Str ⊕ Function)
  | split (varName : Str) (field : Str) (sep : Char)
  | regex (field : Str) (pattern : Str)
deriving Repr

/-- `parse_split_function` (filter.rs lines 307–336). The argument string is
split at the first comma; the separator text has leading whitespace skipped.
When the remaining separator text has fewer than two characters the source's
`split_str[0]`/`split_str[1]` indexing panics. -/
def parseSplitFunction (s varName : Str) : Except Err Function :=
  match splitOnce s ',' with
  | none =>
    .error (.func (.invalidArguments "Invalid arguments to SPLIT function".toList))
  | some (field, sp) =>
    if ¬ fieldNameIsValid field then .error (.func (.invalidArguments field))
    else
      let splitStr := sp.dropWhile Char.isWhitespace
      match splitStr with
      | c0 :: c1 :: _ =>
        if splitStr.length ≠ 3 ∧ c0 ≠ c1 ∧ (c0 = '\'' ∨ c0 = '"') then
          .error (.func (.invalidArguments
            "Missing or invalid opening quotation for splitter".toList))
        else .ok (.split varName field c1)
      | _ => .error .panicked

/-- `Function::from_str` (filter.rs lines 231–305). The `REGEX(` prefix test
is case-sensitive; the variable-assignment path reads a variable and an `=`
operator, then dispatches on `REF(` (case-insensitive) or `SPLIT(`
(case-insensitive at top level, case-sensitive when nested in `REF(`).
The closing parenthesis is searched from index 7 on, so a remainder of
exactly 6 characters panics slicing `s[7..]`. A nested `REF(SPLIT(...))`
calls `parse_split_function` with the empty string as the variable. -/
def Function.fromStr (s : Str) : Except Err Function :=
  if s.length > 6 ∧ slice s 0 6 = "REGEX(".toList then
    match getInnerExpression (s.drop 5) with
    | .error .panicked => .error .panicked
    | .error _ => .error (.func (.invalidArguments (s.drop 5)))
    | .ok (_, args) =>
      match splitOnce (trim args) ',' with
      | some (val, expr) =>
        let expr1 := trimStart expr
        match isQuotedO expr1 with
        | none => .error .panicked
        | some false => .error (.func (.invalidArguments s))
        | some true =>
          .ok (.regex (trimEnd val) (slice expr1 1 (expr1.length - 1)))
      | none => .error (.func (.invalidArguments s))
  else
    match readVariable s with
    | .error _ => .error (.func (.noVariableAssignment s))
    | .ok (len, varName) =>
      let s1 := trimStart (s.drop len)
      match readOp s1 with
      | .error _ => .error (.func (.noVariableAssignment s1))
      | .ok (len2, op) =>
        if op ≠ .equalTo then .error (.func (.invalidOperator op))
        else
          let s2 := trimStart (s1.drop len2)
          if s2.length ≥ 6 then
            if s2.length < 7 then .error .panicked
            else
              let endIdx := ((s2.drop 7).findIdx? (· = ')')).map (· + 7)
              if asciiUpper (slice s2 0 4) = "REF(".toList then
                match endIdx with
                | none => .error (.func .missingClosingParenthesis)
                | some e =>
                  if e > 10 ∧ slice s2 4 10 = "SPLIT(".toList then
                    match parseSplitFunction (slice s2 10 e) [] with
                    | .ok f => .ok (.ref varName (.inr f))
                    | .error err => .error err
                  else
                    if fieldNameIsValid (slice s2 4 e) then
                      .ok (.ref varName (.inl (slice s2 4 e)))
                    else .error (.func (.invalidArguments (slice s2 4 e)))
              else if asciiUpper (slice s2 0 6) = "SPLIT(".toList then
                match endIdx with
                | none => .error (.func .missingClosingParenthesis)
                | some e => parseSplitFunction (slice s2 6 e) varName
              else .error (.func (.unknownFunction s2))
          else .error (.func (.unknownFunction s2))

/-- The condition abstract syntax tree (`Condition` in filter.rs). -/
inductive Condition
  | all
  | filter (field : Str) (op : FilterOp) (value : Str)
  | function (f : Function)
  | and (l r : Condition)
  | or (l r : Condition)
deriving Repr

/-- The conjunction patterns of `Condition::from_str` (filter.rs line 375):
note the trailing — and no leading — space. -/
def andPat : Str := "AND ".toList

def orPat : Str := "OR ".toList

/-- IEEE-754 float values as parsing produces them, exactly: NaN, a signed
infinity, or a finite value. Finite values are kept as exact rationals: the
rounding of a decimal literal to the nearest `f32`/`f64` is not modelled
(it does not affect which strings parse, only which of two in-range numbers
compares smaller in borderline cases). -/
inductive F32
  | nan
  | inf (neg : Bool)
  | fin (q : ℚ)
deriving Repr, DecidableEq

/-- Digits to a natural number. -/
def natOfDigits : Str → Nat → Nat
  | [], acc => acc
  | c :: rest, acc => natOfDigits rest (acc * 10 + (c.toNat - '0'.toNat))

/-- The exponent-and-end of a float literal: empty, or `e`/`E`, an optional
sign and at least one digit, ending the string. Returns the exponent. -/
def parseExpPart (s : Str) : Option Int :=
  match s with
  | [] => some 0
  | e :: rest =>
    if e = 'e' ∨ e = 'E' then
      let (eneg, rest1) : Bool × Str :=
        match rest with
        | '+' :: r => (false, r)
        | '-' :: r => (true, r)
        | r => (false, r)
      let ds := rest1.takeWhile Char.isDigit
      if ds = [] ∨ rest1.drop ds.length ≠ [] then none
      else some (if eneg then -(natOfDigits ds 0 : Int) else (natOfDigits ds 0 : Int))
    else none

/-- `str::parse::<f32>` / `parse::<f64>` (both follow the same grammar:
optional sign, then `inf`/`infinity`/`nan` case-insensitively, or digits
with an optional point and an optional exponent). Returns the parsed value
(`F32`), or `none` when the string is not a valid float literal. -/
def parseF32 (s : Str) : Option F32 :=
  let (neg, s1) : Bool × Str :=
    match s with
    | '+' :: r => (false, r)
    | '-' :: r => (true, r)
    | r => (false, r)
  if asciiLower s1 = "inf".toList ∨ asciiLower s1 = "infinity".toList then
    some (.inf neg)
  else if asciiLower s1 = "nan".toList then some .nan
  else
    let d1 := s1.takeWhile Char.isDigit
    let r1 := s1.drop d1.length
    let (d2, r2) : Str × Str :=
      match r1 with
      | '.' :: r => (r.takeWhile Char.isDigit, r.drop (r.takeWhile Char.isDigit).length)
      | r => ([], r)
    if d1 = [] ∧ (r1.head? ≠ some '.' ∨ d2 = []) then none
    else
      match parseExpPart r2 with
      | none => none
      | some e =>
        let ex : Int := e - (d2.length : Int)
        let mag : ℚ :=
          if 0 ≤ ex then mkRat (natOfDigits (d1 ++ d2) 0 * 10 ^ ex.toNat) 1
          else mkRat (natOfDigits (d1 ++ d2) 0) (10 ^ (-ex).toNat)
        some (.fin (if neg then -mag else mag))

/-- Rust `f32` `<` (`PartialOrd`): false whenever either side is NaN. -/
def F32.lt : F32 → F32 → Bool
  | .nan, _ => false
  | _, .nan => false
  | .inf true, .inf true => false
  | .inf true, _ => true
  | _, .inf true => false
  | .inf false, _ => false
  | .fin _, .inf false => true
  | .fin a, .fin b => decide (a < b)

/-- Rust `f32` `==`: false whenever either side is NaN. -/
def F32.eq : F32 → F32 → Bool
  | .nan, _ => false
  | _, .nan => false
  | .inf a, .inf b => a = b
  | .inf _, .fin _ => false
  | .fin _, .inf _ => false
  | .fin a, .fin b => decide (a = b)

def F32.le (a b : F32) : Bool := F32.lt a b || F32.eq a b

def F32.gt (a b : F32) : Bool := F32.lt b a

def F32.ge (a b : F32) : Bool := F32.le b a

/-- The plain field/operator/value fallback of `Condition::from_str`
(filter.rs lines 404–433, the arm entered when `Function::from_str` failed
with `UnknownFunction` or `InvalidOperator`): read a field name and an
operator, replace the literal value `EMPTY` by `''`, then accept a quoted
value only with `=`/`NOT` (stored unquoted) and an unquoted value only when
it parses as an `f64`. -/
def condFallback (s : Str) : Except Err Condition :=
  match readField s with
  | .error e => .error e
  | .ok (len, field) =>
    let s1 := trimStart (s.drop len)
    match readOp s1 with
    | .error e => .error e
    | .ok (len2, op) =>
      let s2 := trimStart (s1.drop len2)
      let v := if s2 = "EMPTY".toList then ['\'', '\''] else s2
      match isQuotedO v with
      | none => .error .panicked
      | some true =>
        if ¬ (op = .equalTo ∨ op = .not) then
          .error (.anyhow "Cannot make comparison with string")
        else .ok (.filter field op (slice v 1 (v.length - 1)))
      | some false =>
        if (parseF32 v).isSome then .ok (.filter field op v)
        else .error (.anyhow "The string literal is not quoted")

/-- One unfolding of `Condition::from_str` (filter.rs lines 354–441), with
the recursive occurrences abstracted as `rec`: trim, peel a leading
parenthesized group (transparent when it spans the whole string), then
split at the occurrence `find_any_str` reports of `"AND "`/`"OR "` in the
uppercased remainder — `find_any_str` returns the LEFTMOST occurrence —
or, with no conjunction, try a function clause and fall back to a plain
comparison. -/
def condStep (rec : Str → Except Err Condition) (s0 : Str) :
    Except Err Condition :=
  let s := trimStart s0
  let pres : Except Err (Nat × Option Condition) :=
    if s.head? = some '(' then
      match getInnerExpression s with
      | .error e => .error e
      | .ok (len, condStr) =>
        match rec condStr with
        | .error e => .error e
        | .ok c => .ok (len, some c)
    else .ok (0, none)
  match pres with
  | .error e => .error e
  | .ok (len, cond1) =>
    if len = s.length then
      match cond1 with
      | some c => .ok c
      | none => .error (.anyhow "Invalid condition string")
    else
      let t := trimStart (s.drop len)
      match findAnyStr (asciiUpper t) [andPat, orPat] with
      | some (i, op) =>
        let lhs := trimEnd (t.take i)
        let rhs := trimStart (t.drop (i + op.length))
        match (match cond1 with
               | some c => (.ok c : Except Err Condition)
               | none => rec lhs) with
        | .error e => .error e
        | .ok c1 =>
          match rec rhs with
          | .error e => .error e
          | .ok c2 =>
            if op = andPat then .ok (.and c1 c2) else .ok (.or c1 c2)
      | none =>
        match Function.fromStr t with
        | .ok f => .ok (.function f)
        | .error (.func (.unknownFunction _)) => condFallback t
        | .error (.func (.invalidOperator _)) => condFallback t
        | .error e => .error e

/-- `Condition::from_str` with explicit fuel; every recursive call is on a
strictly shorter string, so fuel `s.length + 1` always suffices (proved in
`condFromStrF_fuel`). -/
def condFromStrF : Nat → Str → Except Err Condition
  | 0, _ => .error (.anyhow "out of fuel")
  | fuel + 1, s => condStep (condFromStrF fuel) s

/-- `Condition::from_str` (filter.rs lines 354–441). -/
def Condition.fromStr (s : Str) : Except Err Condition :=
  condFromStrF (s.length + 1) s

/-- A parsed query: the select list and the condition (the struct is named
`Filter` in the analyzed filter.rs revision and `Query` in the revision
args.rs/contact.rs import; `Query` avoids clashing with Mathlib's
`Filter`). -/
structure Query where
  select : List Str
  condition : Condition
deriving Repr

/-- `Filter::from_str` / `Query::from_str` (filter.rs lines 451–479): read
the select-field list; a field-only string (no `WHERE`) selects with
condition `All`; otherwise the case-insensitive keyword `WHERE` must follow
and the remainder is parsed as a condition. -/
def Query.fromStr (s : Str) : Except Err Query :=
  match readFields s with
  | .error e => .error e
  | .ok (idx, select) =>
    if idx = (trimEnd s).length then .ok ⟨select, .all⟩
    else
      let s1 := trimStart (s.drop idx)
      if s1.length < 6 ∨ asciiUpper (slice s1 0 5) ≠ "WHERE".toList then
        .error (.anyhow "Expected WHERE clause")
      else
        let s2 := trimStart (s1.drop 5)
        match Condition.fromStr s2 with
        | .error e => .error e
        | .ok c => .ok ⟨select, c⟩

/-- Modelled from the spec: `Query::merge_with` as §4.5 of the specification
words it — "ANDing their conditions (`And(self.condition, other.condition)`)
and concatenating select lists" (with deduplication, §3). The implementation
of `merge_with` is not among the analyzed sources: the filter.rs present is
an earlier revision that defines `Filter` without `merge_with`; args.rs,
config.rs and main.rs only call it. -/
def Query.mergeWithSpec (q1 q2 : Query) : Query :=
  ⟨(q1.select ++ q2.select).dedup, .and q1.condition q2.condition⟩

/-- Modelled from the spec and the repository's own test: `Query::merge_with`
as the in-repository test `args_chain_filters` (args.rs lines 377–405) pins
it down — the merged condition is `And(self.condition, other.condition)`
and the merged select list keeps the fields of `self` that also occur in
`other` (the test's two select lists are `[Name, Phone]` and
`[Name, Address]` and it asserts the merged list is `[Name]`). -/
def Query.mergeWith (q1 q2 : Query) : Query :=
  ⟨q1.select.filter (fun f => q2.select.contains f),
   .and q1.condition q2.condition⟩

/-- The select list the test `args_chain_filters` (args.rs line 390) asserts
for the merge of its two `--filter` queries. -/
def argsChainFiltersSelect : List Str := ["Name".toList]

/-- A contact's field data as the evaluator reads it (`Contact.info`,
contact.rs line 37): group names (stored lowercased, `"default"` for the
untagged first note) each with the attribute map of the group's first note.
`MultiMap::get` returns the first value inserted for a key, and
`Note::get_attribute` is an exact-key `HashMap` lookup, so both lookups are
first-match searches over association lists here. -/
structure Contact where
  info : List (Str × List (Str × Str))
deriving Repr

/-- `self.info.get(&group.to_lowercase())` (contact.rs line 158). -/
def Contact.getGroup (c : Contact) (group : Str) :
    Option (List (Str × Str)) :=
  (c.info.find? (fun g => g.1 = asciiLower group)).map (fun g => g.2)

/-- `Note::get_attribute` (upim-note lib.rs line 266): exact-key lookup. -/
def getAttribute (attrs : List (Str × Str)) (key : Str) : Option Str :=
  (attrs.find? (fun a => a.1 = key)).map (fun a => a.2)

/-- The numeric comparison of `Contact::matches` for one ordered operator:
the stored attribute is parsed first and a failure returns `false`
immediately; then the comparison literal is parsed and the comparison's
result is taken, `unwrap_or(false)`. -/
def numCompare (cmp : F32 → F32 → Bool) (attr value : Str) : Bool :=
  match parseF32 attr with
  | none => false
  | some a =>
    match parseF32 value with
    | some v => cmp a v
    | none => false

/-- `Contact::matches` (contact.rs lines 151–232). `Condition::Function` is
`todo!()` in the source — evaluating any function clause panics — modelled
as `none`; every other condition shape yields `some` of the source's
boolean. For a `Filter` leaf the field is split at the first `:` into
group and bare field (group `"default"` when there is no `:`); a missing
group yields `false`, a present group with a missing field yields
`op == Not`; `=`/`NOT` compare strings and the four ordered operators
compare parsed `f32`s. `&&`/`||` short-circuit, so a panic in the right
branch is not reached when the left branch decides. -/
def Contact.matches (c : Contact) : Condition → Option Bool
  | .all => some true
  | .filter field op value =>
    let gf := (splitOnce field ':').getD ("default".toList, field)
    match c.getGroup gf.1 with
    | some info =>
      match getAttribute info gf.2 with
      | some attr =>
        match op with
        | .equalTo => some (attr = value)
        | .lessThan => some (numCompare F32.lt attr value)
        | .lessEq => some (numCompare F32.le attr value)
        | .greaterThan => some (numCompare F32.gt attr value)
        | .greaterEq => some (numCompare F32.ge attr value)
        | .not => some (attr ≠ value)
      | none => some (op = FilterOp.not)
    | none => some false
  | .function _ => none
  | .and l r =>
    match c.matches l with
    | some true => c.matches r
    | some false => some false
    | none => none
  | .or l r =>
    match c.matches l with
    | some false => c.matches r
    | some true => some true
    | none => none

/-- The per-operator comparison used by the ordered branches of
`Contact::matches`. -/
def F32.cmpOp : FilterOp → F32 → F32 → Bool
  | .lessThan => F32.lt
  | .lessEq => F32.le
  | .greaterThan => F32.gt
  | .greaterEq => F32.ge
  | _ => fun _ _ => false

/-- The contact built by contact.rs's `filter_*` unit tests: `Name` and `Num`
in the default group, an `employer` group with a `Name`. -/
def exampleContact : Contact :=
  ⟨[("default".toList,
     [("Name".toList, "Favorite Person".toList),
      ("Num".toList, "123".toList)]),
    ("employer".toList,
     [("Name".toList, "Some Company".toList)])]⟩

/-- The parse of `"Name,Phone WHERE Name = 'Somebody'"`, the first
`--filter` of the test `args_chain_filters` (args.rs line 380). -/
def chainFilterQ1 : Query :=
  ⟨["Name".toList, "Phone".toList],
   .filter "Name".toList .equalTo "Somebody".toList⟩

/-- The parse of `"Name,Address WHERE Name = 'Nobody'"`, the second
`--filter` of the test `args_chain_filters` (args.rs line 381). -/
def chainFilterQ2 : Query :=
  ⟨["Name".toList, "Address".toList],
   .filter "Name".toList .equalTo "Nobody".toList⟩

/-! ### Structural lemmas about the lexical primitives -/

theorem trimStart_length (s : Str) : (trimStart s).length ≤ s.length :=
  (List.dropWhile_suffix _).length_le

theorem trimEnd_length (s : Str) : (trimEnd s).length ≤ s.length := by
  have h := (List.dropWhile_suffix (l := s.reverse) Char.isWhitespace).length_le
  simpa [trimEnd] using h

theorem trimStart_trimStart (s : Str) : trimStart (trimStart s) = trimStart s := by
  unfold trimStart
  induction s with
  | nil => rfl
  | cons c rest ih =>
    simp only [List.dropWhile_cons]
    by_cases h : c.isWhitespace = true
    · simpa [h] using ih
    · simp [h]

theorem asciiUpper_length (s : Str) : (asciiUpper s).length = s.length :=
  List.length_map s asciiUpperChar

theorem slice_length (s : Str) (a b : Nat) :
    (slice s a b).length = min b s.length - a := by
  simp [slice]

theorem findAnyStrGo_bound (pats : List Str) (s : Str) :
    ∀ (i j : Nat) (p : Str), findAnyStrGo pats s i = some (j, p) →
      p ∈ pats ∧ i ≤ j ∧ j + p.length ≤ i + s.length := by
  induction s with
  | nil => intro i j p h; simp [findAnyStrGo] at h
  | cons c rest ih =>
    intro i j p h
    unfold findAnyStrGo at h
    cases hf : pats.find? (fun p => p.isPrefixOf (c :: rest)) with
    | some q =>
      rw [hf] at h
      simp only [Option.some.injEq, Prod.mk.injEq] at h
      obtain ⟨h1, h2⟩ := h
      subst h1
      subst h2
      refine ⟨List.mem_of_find?_eq_some hf, le_refl _, ?_⟩
      have hq := List.find?_some hf
      have hpre : q <+: (c :: rest) := List.isPrefixOf_iff_prefix.mp hq
      have := hpre.length_le
      simp only [List.length_cons] at this ⊢
      omega
    | none =>
      rw [hf] at h
      obtain ⟨hm, hij, hb⟩ := ih (i + 1) j p h
      refine ⟨hm, by omega, ?_⟩
      simp only [List.length_cons]
      omega

theorem findAnyStr_bound (s : Str) (pats : List Str) (j : Nat) (p : Str)
    (h : findAnyStr s pats = some (j, p)) :
    p ∈ pats ∧ j + p.length ≤ s.length := by
  have := findAnyStrGo_bound pats s 0 j p h
  exact ⟨this.1, by omega⟩

theorem findAnyStrGo_min (pats : List Str) (s : Str) :
    ∀ (i j : Nat) (p : Str), findAnyStrGo pats s i = some (j, p) →
      ∀ k, i + k < j → ∀ q ∈ pats, q.isPrefixOf (s.drop k) = false := by
  induction s with
  | nil => intro i j p h; simp [findAnyStrGo] at h
  | cons c rest ih =>
    intro i j p h k hk q hq
    unfold findAnyStrGo at h
    cases hf : pats.find? (fun p => p.isPrefixOf (c :: rest)) with
    | some r =>
      rw [hf] at h
      simp only [Option.some.injEq, Prod.mk.injEq] at h
      obtain ⟨h1, -⟩ := h
      omega
    | none =>
      rw [hf] at h
      cases k with
      | zero =>
        have hnone := List.find?_eq_none.mp hf q hq
        simp only [List.drop_zero]
        cases hbool : q.isPrefixOf (c :: rest)
        · rfl
        · exact absurd hbool hnone
      | succ k' =>
        have := ih (i + 1) j p h k' (by omega) q hq
        simpa using this

theorem findAnyStr_min (s : Str) (pats : List Str) (j : Nat) (p : Str)
    (h : findAnyStr s pats = some (j, p)) :
    ∀ k < j, ∀ q ∈ pats, q.isPrefixOf (s.drop k) = false := by
  intro k hk q hq
  exact findAnyStrGo_min pats s 0 j p h k (by omega) q hq

theorem gieLoop_bound (s : Str) :
    ∀ (lvl : Int) (k i : Nat), gieLoop s lvl k = some i →
      k ≤ i ∧ i < k + s.length := by
  induction s with
  | nil => intro lvl k i h; simp [gieLoop] at h
  | cons c rest ih =>
    intro lvl k i h
    unfold gieLoop at h
    generalize (if c = '(' then lvl + 1
                else if c = ')' then lvl - 1 else lvl) = lvl' at h
    by_cases hz : lvl' = 0
    · rw [if_pos hz] at h
      obtain rfl : k = i := by simpa using h
      simp only [List.length_cons]
      omega
    · rw [if_neg hz] at h
      obtain ⟨h1, h2⟩ := ih lvl' (k + 1) i h
      simp only [List.length_cons]
      omega

theorem getInnerExpression_len (s : Str) (len : Nat) (inner : Str)
    (h : getInnerExpression s = .ok (len, inner)) :
    2 ≤ len ∧ len ≤ s.length ∧ inner.length + 2 = len := by
  unfold getInnerExpression at h
  by_cases hnil : s = []
  · rw [if_pos hnil] at h
    simp at h
  · rw [if_neg hnil] at h
    cases hg : gieLoop s 0 0 with
    | none => rw [hg] at h; simp at h
    | some i =>
      simp only [hg] at h
      obtain ⟨h0, hlt⟩ := gieLoop_bound s 0 0 i hg
      by_cases h1 : 1 ≤ i
      · rw [if_pos h1] at h
        simp only [Except.ok.injEq, Prod.mk.injEq] at h
        obtain ⟨hl, hi⟩ := h
        subst hl
        subst hi
        refine ⟨by omega, by omega, ?_⟩
        rw [slice_length]
        omega
      · rw [if_neg h1] at h
        simp at h

/-! ### Fuel adequacy for the condition parser -/

theorem condStep_congr (r1 r2 : Str → Except Err Condition) (s0 : Str)
    (h : ∀ x, x.length < s0.length → r1 x = r2 x) :
    condStep r1 s0 = condStep r2 s0 := by
  have hts : (trimStart s0).length ≤ s0.length := trimStart_length s0
  simp only [condStep]
  by_cases hp : (trimStart s0).head? = some '('
  · simp only [if_pos hp]
    cases hg : getInnerExpression (trimStart s0) with
    | error e => simp only [hg]
    | ok li =>
      obtain ⟨len, condStr⟩ := li
      obtain ⟨hl2, hlle, hilen⟩ := getInnerExpression_len _ _ _ hg
      have hrec : r1 condStr = r2 condStr := h condStr (by omega)
      simp only [hg, hrec]
      cases hc : r2 condStr with
      | error e => simp only [hc]
      | ok c =>
        simp only [hc]
        by_cases hlen : len = (trimStart s0).length
        · simp only [if_pos hlen]
        · simp only [if_neg hlen]
          cases hf : findAnyStr
              (asciiUpper (trimStart ((trimStart s0).drop len)))
              [andPat, orPat] with
          | none => simp only [hf]
          | some ip =>
            obtain ⟨i, op⟩ := ip
            have htd : (trimStart ((trimStart s0).drop len)).length ≤
                (trimStart s0).length - len := by
              have := trimStart_length ((trimStart s0).drop len)
              simpa using this
            have hrhs :
                (trimStart ((trimStart ((trimStart s0).drop len)).drop
                  (i + op.length))).length < s0.length := by
              have h1 := trimStart_length
                ((trimStart ((trimStart s0).drop len)).drop (i + op.length))
              have h2 := List.length_drop (i + op.length)
                (trimStart ((trimStart s0).drop len))
              omega
            have := h _ hrhs
            simp only [hf, this]
  · simp only [if_neg hp]
    by_cases hlen : (0 : Nat) = (trimStart s0).length
    · simp only [if_pos hlen]
    · simp only [if_neg hlen]
      cases hf : findAnyStr
          (asciiUpper (trimStart ((trimStart s0).drop 0)))
          [andPat, orPat] with
      | none => simp only [hf]
      | some ip =>
        obtain ⟨i, op⟩ := ip
        obtain ⟨hmem, hb⟩ := findAnyStr_bound _ _ _ _ hf
        have hopl : 3 ≤ op.length := by
          rcases List.mem_pair.mp hmem with rfl | rfl
          · simp [andPat]
          · simp [orPat]
        rw [asciiUpper_length] at hb
        have htd : (trimStart ((trimStart s0).drop 0)).length ≤
            (trimStart s0).length := by
          have := trimStart_length ((trimStart s0).drop 0)
          simpa using this
        have hlhs :
            (trimEnd ((trimStart ((trimStart s0).drop 0)).take i)).length <
              s0.length := by
          have h1 := trimEnd_length ((trimStart ((trimStart s0).drop 0)).take i)
          have h2 := List.length_take i (trimStart ((trimStart s0).drop 0))
          omega
        have hrhs :
            (trimStart ((trimStart ((trimStart s0).drop 0)).drop
              (i + op.length))).length < s0.length := by
          have h1 := trimStart_length
            ((trimStart ((trimStart s0).drop 0)).drop (i + op.length))
          have h2 := List.length_drop (i + op.length)
            (trimStart ((trimStart s0).drop 0))
          omega
        have e1 := h _ hlhs
        have e2 := h _ hrhs
        simp only [hf, e1, e2]

theorem condFromStrF_fuel (fuel : Nat) :
    ∀ s : Str, s.length < fuel →
      condFromStrF fuel s = Condition.fromStr s := by
  induction fuel using Nat.strong_induction_on with
  | _ fuel ih =>
    intro s hs
    match fuel, hs with
    | fuel + 1, hs =>
      show condStep (condFromStrF fuel) s = Condition.fromStr s
      unfold Condition.fromStr
      show condStep (condFromStrF fuel) s = condStep (condFromStrF s.length) s
      refine condStep_congr _ _ s (fun x hx => ?_)
      have e1 : condFromStrF fuel x = Condition.fromStr x :=
        ih fuel (Nat.lt_succ_self fuel) x (by omega)
      have e2 : condFromStrF s.length x = Condition.fromStr x :=
        ih s.length (by omega) x hx
      rw [e1, e2]

theorem fromStr_eq_step (s : Str) :
    Condition.fromStr s = condStep Condition.fromStr s := by
  show condFromStrF (s.length + 1) s = _
  show condStep (condFromStrF s.length) s = _
  exact condStep_congr _ _ s (fun x hx => condFromStrF_fuel s.length x hx)

/-- One step of `Condition::from_str` on a condition string that does not
start with a parenthesis and contains a conjunction: the string splits at
the occurrence reported by `find_any_str` and the two sides are parsed
recursively. -/
theorem fromStr_split (s : Str) (i : Nat) (op : Str)
    (hpar : ¬((trimStart s).head? = some '('))
    (hne : ¬(trimStart s = []))
    (hfind : findAnyStr (asciiUpper (trimStart s)) [andPat, orPat] =
      some (i, op)) :
    Condition.fromStr s =
      match Condition.fromStr (trimEnd ((trimStart s).take i)) with
      | .error e => .error e
      | .ok c1 =>
        match Condition.fromStr
            (trimStart ((trimStart s).drop (i + op.length))) with
        | .error e => .error e
        | .ok c2 => if op = andPat then .ok (.and c1 c2) else .ok (.or c1 c2)
      := by
  have hlen : ¬((0 : Nat) = (trimStart s).length) := by
    intro h
    exact hne (List.length_eq_zero.mp h.symm)
  rw [fromStr_eq_step]
  simp only [condStep, if_neg hpar, if_neg hlen, List.drop_zero,
    trimStart_trimStart, hfind]

/-- One step of `Condition::from_str` on a condition string that does not
start with a parenthesis, contains no conjunction, and whose function parse
fails with `UnknownFunction` or `InvalidOperator`: the plain comparison
fallback runs on the trimmed string. -/
theorem fromStr_fallback (s : Str)
    (hpar : ¬((trimStart s).head? = some '('))
    (hne : ¬(trimStart s = []))
    (hfind : findAnyStr (asciiUpper (trimStart s)) [andPat, orPat] = none)
    (hfun :
      (∃ x, Function.fromStr (trimStart s) =
        .error (.func (.unknownFunction x))) ∨
      (∃ o, Function.fromStr (trimStart s) =
        .error (.func (.invalidOperator o)))) :
    Condition.fromStr s = condFallback (trimStart s) := by
  have hlen : ¬((0 : Nat) = (trimStart s).length) := by
    intro h
    exact hne (List.length_eq_zero.mp h.symm)
  rw [fromStr_eq_step]
  rcases hfun with ⟨x, hx⟩ | ⟨o, ho⟩
  · simp only [condStep, if_neg hpar, if_neg hlen, List.drop_zero,
      trimStart_trimStart, hfind, hx]
  · simp only [condStep, if_neg hpar, if_neg hlen, List.drop_zero,
      trimStart_trimStart, hfind, ho]

/-- `parse_split_function` only ever builds a `Split` carrying exactly the
variable name it was given. -/
theorem parseSplitFunction_shape (s varName : Str) (f : Function)
    (h : parseSplitFunction s varName = .ok f) :
    ∃ fl sp, f = .split varName fl sp := by
  unfold parseSplitFunction at h
  split at h
  · simp at h
  · split at h
    · simp at h
    · dsimp only at h
      split at h
      · split at h
        · simp at h
        · exact ⟨_, _, by simpa using h.symm⟩
      · simp at h

/-- A `numCompare` returns the comparison of the two parsed values, and
`false` as soon as either side fails to parse. -/
theorem numCompare_eq (cmp : F32 → F32 → Bool) (attr value : Str) :
    (∀ a v, parseF32 attr = some a → parseF32 value = some v →
       numCompare cmp attr value = cmp a v) ∧
    ((parseF32 attr = none ∨ parseF32 value = none) →
       numCompare cmp attr value = false) := by
  constructor
  · intro a v ha hv
    simp [numCompare, ha, hv]
  · intro h
    rcases h with h | h
    · simp [numCompare, h]
    · cases hp : parseF32 attr <;> simp [numCompare, h, hp]

/-! ### The claims -/

/-- C8: parsing the serialized text form of each operator yields the
operator again — `FilterOp::from_str` after `Display` is the identity on
the six operators. -/
theorem C8_operator_roundtrip (op : FilterOp) :
    FilterOp.fromStr (FilterOp.toStr op) = .ok op := by
  cases op <;> rfl

/-- C7 (code bug): `is_quoted` does return first-equals-last-quote on
two-or-more-character strings and `false` on the empty string and on a
single non-quote character, but on the single-character strings `"'"` and
`"\""` the source executes `panic!()` (modelled as `none`) instead of
returning `false` as specified. -/
theorem C7_is_quoted_single_quote_panics :
    isQuotedO ['\''] = none ∧
    isQuotedO ['"'] = none ∧
    isQuotedO [] = some false ∧
    isQuotedO ['a'] = some false ∧
    isQuotedO "'some text'".toList = some true ∧
    isQuotedO "'some text".toList = some false :=
  ⟨rfl, rfl, rfl, rfl, rfl, rfl⟩

/-- C1 (code bug): evaluating a `Function(Regex(..))` condition never
returns a boolean — `Contact::matches` hits `todo!()` (contact.rs line 221)
and panics (modelled as `none`), even on a contact whose default group does
hold the named field. -/
theorem C1_regex_condition_evaluation_panics :
    exampleContact.matches
      (.function (.regex "Name".toList ".*".toList)) = none ∧
    (exampleContact.getGroup "default".toList).isSome = true :=
  ⟨rfl, rfl⟩

/-- C3 counterexample: on a contact with no `spouse` group, the condition
`Filter("Spouse:Name", Not, "x")` — whose group is absent and whose
operator is `Not` — evaluates to `false`, where the claim demands `true`. -/
theorem C3_missing_group_not_refuted :
    exampleContact.getGroup "Spouse".toList = none ∧
    exampleContact.matches
      (.filter "Spouse:Name".toList .not "x".toList) = some false :=
  ⟨rfl, rfl⟩

/-- C3 (amended): splitting the field at the first `:` (default group
`"default"`), a missing group makes `matches` return `false` for every
operator; a present group whose attribute map lacks the bare field makes
`matches` return `true` exactly when the operator is `Not`. -/
theorem C3_missing_group_or_field (c : Contact) (field : Str) (op : FilterOp)
    (value group bare : Str)
    (hsplit : (splitOnce field ':').getD ("default".toList, field) =
      (group, bare)) :
    (c.getGroup group = none →
       c.matches (.filter field op value) = some false) ∧
    (∀ attrs, c.getGroup group = some attrs →
       getAttribute attrs bare = none →
       c.matches (.filter field op value) =
         some (decide (op = FilterOp.not))) := by
  constructor
  · intro hg
    simp only [Contact.matches, hsplit, hg]
  · intro attrs hg ha
    simp only [Contact.matches, hsplit, hg, ha]

/-- C3 witness: the amended theorem applied to a concrete contact, a
group-qualified field whose group is absent and a bare field that is absent
from the present default group. -/
theorem C3_missing_witness :
    exampleContact.matches
      (.filter "Spouse:Phone".toList .equalTo "1".toList) = some false ∧
    exampleContact.matches
      (.filter "Stuff".toList .not "a".toList) = some true := by
  constructor
  · exact (C3_missing_group_or_field exampleContact "Spouse:Phone".toList
      .equalTo "1".toList "Spouse".toList "Phone".toList rfl).1 rfl
  · have h := (C3_missing_group_or_field exampleContact "Stuff".toList
      .not "a".toList "default".toList "Stuff".toList rfl).2
      [("Name".toList, "Favorite Person".toList),
       ("Num".toList, "123".toList)] rfl rfl
    exact h.trans (by decide)

/-- C5 counterexample: parsing the two `--filter` strings of the repository
test `args_chain_filters` and merging the queries as the claim words it
(concatenating/deduplicating select lists) yields a select list different
from the `["Name"]` the repository's own test asserts; the ANDed condition
part does hold. -/
theorem C5_concat_select_refuted :
    Query.fromStr "Name,Phone WHERE Name = 'Somebody'".toList =
      .ok chainFilterQ1 ∧
    Query.fromStr "Name,Address WHERE Name = 'Nobody'".toList =
      .ok chainFilterQ2 ∧
    (Query.mergeWithSpec chainFilterQ1 chainFilterQ2).select ≠
      argsChainFiltersSelect ∧
    (Query.mergeWithSpec chainFilterQ1 chainFilterQ2).condition =
      .and chainFilterQ1.condition chainFilterQ2.condition := by
  refine ⟨rfl, rfl, by decide, rfl⟩

/-- C5 (amended): merging ANDs the conditions — `And(q1.condition,
q2.condition)`, so chained merges nest every original sub-condition — and
the merged select list keeps the fields of the first query that also occur
in the second (the behavior the repository's `args_chain_filters` test
pins), not the concatenation. -/
theorem C5_merge_and_conditions (q1 q2 q3 : Query) :
    (q1.mergeWith q2).condition = .and q1.condition q2.condition ∧
    ((q1.mergeWith q2).mergeWith q3).condition =
      .and (.and q1.condition q2.condition) q3.condition ∧
    (q1.mergeWith q2).select =
      q1.select.filter (fun f => q2.select.contains f) ∧
    chainFilterQ1.mergeWith chainFilterQ2 =
      ⟨argsChainFiltersSelect,
       .and chainFilterQ1.condition chainFilterQ2.condition⟩ :=
  ⟨rfl, rfl, rfl, rfl⟩

/-- C2 (amended): on a condition string that is not parenthesized, the
parser locates its split point by searching case-insensitively (via
uppercasing) for the LEFTMOST occurrence of `"AND "` or `"OR "` (trailing
space, no leading space required); whichever occurs leftmost becomes the
root `And`/`Or` node, its children the recursive parses of the left and
right substrings. -/
theorem C2_split_at_leftmost_conjunction (s : Str) (i : Nat) (op : Str)
    (hpar : ¬((trimStart s).head? = some '('))
    (hne : ¬(trimStart s = []))
    (hfind : findAnyStr (asciiUpper (trimStart s)) [andPat, orPat] =
      some (i, op)) :
    (op = andPat ∨ op = orPat) ∧
    (∀ k, k < i → andPat.isPrefixOf ((asciiUpper (trimStart s)).drop k) = false ∧
       orPat.isPrefixOf ((asciiUpper (trimStart s)).drop k) = false) ∧
    Condition.fromStr s =
      match Condition.fromStr (trimEnd ((trimStart s).take i)) with
      | .error e => .error e
      | .ok c1 =>
        match Condition.fromStr
            (trimStart ((trimStart s).drop (i + op.length))) with
        | .error e => .error e
        | .ok c2 =>
          if op = andPat then .ok (.and c1 c2) else .ok (.or c1 c2) := by
  refine ⟨?_, ?_, fromStr_split s i op hpar hne hfind⟩
  · have := (findAnyStr_bound _ _ _ _ hfind).1
    simpa using this
  · intro k hk
    exact ⟨findAnyStr_min _ _ _ _ hfind k hk andPat (by simp),
           findAnyStr_min _ _ _ _ hfind k hk orPat (by simp)⟩

/-- C2 witness: in `"a = 'b' OR b = 'c' AND c = 'd'"` the leftmost
conjunction is the `OR` at index 8, and it becomes the root. -/
theorem C2_split_witness :
    Condition.fromStr "a = 'b' OR b = 'c' AND c = 'd'".toList =
      .ok (.or (.filter "a".toList .equalTo "b".toList)
            (.and (.filter "b".toList .equalTo "c".toList)
                  (.filter "c".toList .equalTo "d".toList))) := by
  have h := (C2_split_at_leftmost_conjunction
    "a = 'b' OR b = 'c' AND c = 'd'".toList 8 orPat
    (by decide) (by decide) (by rfl)).2.2
  rw [h]
  rfl

/-- C9: with no parenthesized prefix, the parser splits at the leftmost
conjunction occurrence — no pattern matches at any earlier index — and the
right child is the recursive parse of the entire remainder, so repeated
conjunctions associate to the right. -/
theorem C9_leftmost_split_right_nested (s : Str) (i : Nat) (op : Str)
    (hpar : ¬((trimStart s).head? = some '('))
    (hne : ¬(trimStart s = []))
    (hfind : findAnyStr (asciiUpper (trimStart s)) [andPat, orPat] =
      some (i, op)) :
    (∀ k, k < i → ∀ q, q ∈ [andPat, orPat] →
       q.isPrefixOf ((asciiUpper (trimStart s)).drop k) = false) ∧
    Condition.fromStr s =
      match Condition.fromStr (trimEnd ((trimStart s).take i)) with
      | .error e => .error e
      | .ok c1 =>
        match Condition.fromStr
            (trimStart ((trimStart s).drop (i + op.length))) with
        | .error e => .error e
        | .ok c2 =>
          if op = andPat then .ok (.and c1 c2) else .ok (.or c1 c2) :=
  ⟨fun k hk q hq => findAnyStr_min _ _ _ _ hfind k hk q hq,
   fromStr_split s i op hpar hne hfind⟩

/-- C9 witness: `"a = 'b' AND b = 'c' AND c = 'd'"` splits at the first
`AND` (index 8) and parses right-nested, as
`And(a='b', And(b='c', c='d'))`. -/
theorem C9_split_witness :
    Condition.fromStr "a = 'b' AND b = 'c' AND c = 'd'".toList =
      .ok (.and (.filter "a".toList .equalTo "b".toList)
            (.and (.filter "b".toList .equalTo "c".toList)
                  (.filter "c".toList .equalTo "d".toList))) := by
  have h := (C9_leftmost_split_right_nested
    "a = 'b' AND b = 'c' AND c = 'd'".toList 8 andPat
    (by decide) (by decide) (by rfl)).2
  rw [h]
  rfl

/-- C4: for an ordered comparison on a present field, `matches` parses both
the stored value and the literal as floats and returns that comparison,
returning `false` (never a panic or error) when either side fails to
parse. -/
theorem C4_numeric_comparison (c : Contact) (field : Str) (op : FilterOp)
    (value group bare : Str) (attrs : List (Str × Str)) (attr : Str)
    (hop : op = FilterOp.lessThan ∨ op = FilterOp.lessEq ∨
           op = FilterOp.greaterThan ∨ op = FilterOp.greaterEq)
    (hsplit : (splitOnce field ':').getD ("default".toList, field) =
      (group, bare))
    (hg : c.getGroup group = some attrs)
    (ha : getAttribute attrs bare = some attr) :
    (∀ a v, parseF32 attr = some a → parseF32 value = some v →
       c.matches (.filter field op value) = some (F32.cmpOp op a v)) ∧
    ((parseF32 attr = none ∨ parseF32 value = none) →
       c.matches (.filter field op value) = some false) := by
  rcases hop with rfl | rfl | rfl | rfl <;>
    refine ⟨fun a v hav hvv => ?_, fun hn => ?_⟩ <;>
    simp only [Contact.matches, hsplit, hg, ha, F32.cmpOp] <;>
    first
      | exact congrArg some ((numCompare_eq _ attr value).1 a v hav hvv)
      | exact congrArg some ((numCompare_eq _ attr value).2 hn)

/-- C4 witness: `Num` is `"123"`, so `Num < 200` matches and
`Num < non-numeric` is `false` rather than an error. -/
theorem C4_numeric_witness :
    exampleContact.matches
      (.filter "Num".toList .lessThan "200".toList) = some true ∧
    exampleContact.matches
      (.filter "Num".toList .lessThan "Other".toList) = some false := by
  constructor
  · have h := (C4_numeric_comparison exampleContact "Num".toList .lessThan
      "200".toList "default".toList "Num".toList
      [("Name".toList, "Favorite Person".toList),
       ("Num".toList, "123".toList)] "123".toList
      (Or.inl rfl) rfl rfl rfl).1 (.fin 123) (.fin 200)
      (by decide) (by decide)
    exact h.trans (by decide)
  · exact (C4_numeric_comparison exampleContact "Num".toList .lessThan
      "Other".toList "default".toList "Num".toList
      [("Name".toList, "Favorite Person".toList),
       ("Num".toList, "123".toList)] "123".toList
      (Or.inl rfl) rfl rfl rfl).2 (Or.inr (by decide))

/-- C2 counterexample: in `"a = 'b' AND b = 'c' OR c = 'd'"` the rightmost
conjunction is the `OR`, so the claim demands an `Or` root; the parser
splits at the leftmost conjunction and produces an `And` root. -/
theorem C2_rightmost_refuted :
    Condition.fromStr "a = 'b' AND b = 'c' OR c = 'd'".toList =
      .ok (.and (.filter "a".toList .equalTo "b".toList)
            (.or (.filter "b".toList .equalTo "c".toList)
                 (.filter "c".toList .equalTo "d".toList))) := rfl

/-- C6: when the condition parser falls back to a field/operator/value
comparison (no parenthesized prefix, no conjunction, function parse failed
with `UnknownFunction`/`InvalidOperator`), the comparison value — with the
literal keyword `EMPTY` first replaced by the quoted empty string `''` —
must be quoted (accepted only with `=`/`NOT` and stored with the
surrounding quotes removed; any other operator is a parse failure) or a
valid number (any operator); any other value fails the parse (the lone
single-quote-character value does so by panicking in `is_quoted`). -/
theorem C6_comparison_value_rules (s t field : Str) (op : FilterOp)
    (v : Str) (lenF lenO : Nat)
    (ht : t = trimStart s)
    (hpar : ¬((trimStart s).head? = some '('))
    (hne : ¬(trimStart s = []))
    (hfind : findAnyStr (asciiUpper (trimStart s)) [andPat, orPat] = none)
    (hfun :
      (∃ x, Function.fromStr t = .error (.func (.unknownFunction x))) ∨
      (∃ o, Function.fromStr t = .error (.func (.invalidOperator o))))
    (hfield : readField t = .ok (lenF, field))
    (hop : readOp (trimStart (t.drop lenF)) = .ok (lenO, op))
    (hv : v =
      (if trimStart ((trimStart (t.drop lenF)).drop lenO) = "EMPTY".toList
       then ['\'', '\'']
       else trimStart ((trimStart (t.drop lenF)).drop lenO))) :
    (isQuotedO v = some true → (op = .equalTo ∨ op = .not) →
       Condition.fromStr s = .ok (.filter field op (slice v 1 (v.length - 1)))) ∧
    (isQuotedO v = some true → ¬(op = .equalTo ∨ op = .not) →
       Condition.fromStr s =
         .error (.anyhow "Cannot make comparison with string")) ∧
    (isQuotedO v = some false → (parseF32 v).isSome = true →
       Condition.fromStr s = .ok (.filter field op v)) ∧
    (isQuotedO v = some false → (parseF32 v).isSome = false →
       Condition.fromStr s =
         .error (.anyhow "The string literal is not quoted")) ∧
    (isQuotedO v = none → Condition.fromStr s = .error .panicked) := by
  subst ht
  subst hv
  rw [fromStr_fallback s hpar hne hfind hfun]
  unfold condFallback
  simp only [hfield]
  simp only [hop]
  refine ⟨?_, ?_, ?_, ?_, ?_⟩
  · intro hq hops
    simp only [hq, if_neg (not_not_intro hops)]
  · intro hq hops
    simp only [hq, if_pos hops]
  · intro hq hnum
    simp only [hq, if_pos hnum]
  · intro hq hnum
    simp only [hq]
    rw [if_neg (by rw [hnum]; decide)]
  · intro hq
    simp only [hq]

/-- C6 witness: `"Name < 12"` — unquoted numeric value with an ordered
operator — parses to `Filter("Name", LessThan, "12")`. -/
theorem C6_value_witness :
    Condition.fromStr "Name < 12".toList =
      .ok (.filter "Name".toList .lessThan "12".toList) := by
  have h := (C6_comparison_value_rules "Name < 12".toList
    (trimStart "Name < 12".toList) "Name".toList .lessThan "12".toList 4 1
    rfl (by decide) (by decide) (by rfl)
    (Or.inr ⟨.lessThan, by rfl⟩) (by rfl) (by rfl) (by rfl)).2.2.1
    (by rfl) (by rfl)
  exact h

/-- C10: a nested `"v = REF(SPLIT(field, sep))"` stores the empty string as
the inner `Split`'s variable-name — every `Ref` whose target is a nested
function wraps a `Split` with an empty variable — while a top-level
`"v = SPLIT(field, sep)"` stores `"v"` in the `Split` itself. -/
theorem C10_nested_split_empty_var :
    (∀ s v f, Function.fromStr s = .ok (.ref v (.inr f)) →
       ∃ fl sp, f = .split [] fl sp) ∧
    Condition.fromStr "v = REF(SPLIT(Children, ','))".toList =
      .ok (.function (.ref "v".toList
        (.inr (.split [] "Children".toList ',')))) ∧
    Condition.fromStr "v = SPLIT(Children, ',')".toList =
      .ok (.function (.split "v".toList "Children".toList ',')) := by
  refine ⟨?_, rfl, rfl⟩
  intro s v f h
  unfold Function.fromStr at h
  split at h
  · -- REGEX branch: only `Regex` (or an error) can come out
    split at h
    · simp at h
    · simp at h
    · split at h
      · try dsimp only at h
        split at h
        · simp at h
        · simp at h
        · simp at h
      · simp at h
  · -- variable-assignment branch
    split at h
    · simp at h
    · try dsimp only at h
      split at h
      · simp at h
      · split at h
        · simp at h
        · try dsimp only at h
          split at h
          · split at h
            · simp at h
            · try dsimp only at h
              split at h
              · -- REF( prefix
                split at h
                · simp at h
                · split at h
                  · -- nested REF(SPLIT(...)): inner variable is []
                    split at h
                    · obtain ⟨hv, hf⟩ : _ ∧ _ := by
                        simpa using h
                      obtain ⟨fl, sp, hfl⟩ :=
                        parseSplitFunction_shape _ _ _ (by assumption)
                      exact ⟨fl, sp, by rw [← hf, hfl]⟩
                    · simp at h
                  · -- plain REF(field): the target is `inl`, not `inr`
                    split at h
                    · simp at h
                    · simp at h
              · split at h
                · -- top-level SPLIT( builds a Split, never a Ref
                  split at h
                  · simp at h
                  · obtain ⟨fl, sp, hfl⟩ := parseSplitFunction_shape _ _ _ h
                    simp at hfl
                · simp at h
          · simp at h

end Upim
